import Mathlib

/-!
Verification development for the NeurIPS paper scraper (src/main.py).

Strings are modelled as lists of Unicode code points (`List Char`).
External collaborators (the web client, BeautifulSoup page parsing, the
zipfile library, the filesystem) are modelled as oracles or event logs;
the Python standard library functions used by the source
(`unicodedata.normalize`, `os.path.splitext`, `str.strip`, `str.split`,
the `re` character classes) are modelled faithfully on the code points
the development exercises, and exactly on ASCII.
-/

deriving instance DecidableEq for Except

/-- Strings as lists of Unicode code points. -/

abbrev Str := List Char

/-- Code points of a Lean string literal. -/

def chars (s : String) : Str := s.data

/-- Decimal rendering of a natural number, as in Python str(year). -/

def natToStr (n : Nat) : Str := (toString n).data

/-- Model of the word-character class of Python re (the class w) restricted
to the code points exercised here: ASCII alphanumerics and underscore,
Latin-1 letters, Hangul conjoining jamo, and Hangul syllables. Exact on
ASCII. -/

def isWordNat (n : Nat) : Bool :=
  (48 ≤ n && n ≤ 57) || (65 ≤ n && n ≤ 90) || n == 95 || (97 ≤ n && n ≤ 122) ||
  (192 ≤ n && n ≤ 255 && !(n == 215) && !(n == 247)) ||
  (0x1100 ≤ n && n ≤ 0x11FF) || (0xAC00 ≤ n && n ≤ 0xD7A3)

/-- Model of Python whitespace (str.isspace and the re class s): exact on
ASCII, plus U+0085 and U+00A0. -/

def isSpaceNat (n : Nat) : Bool :=
  n == 9 || n == 10 || n == 11 || n == 12 || n == 13 ||
  n == 28 || n == 29 || n == 30 || n == 31 || n == 32 ||
  n == 133 || n == 160

def isWordChar (c : Char) : Bool := isWordNat c.toNat

def isSpaceChar (c : Char) : Bool := isSpaceNat c.toNat

/-- Characters kept by the first substitution in slugify: word characters,
whitespace, and the hyphen. -/

def keepChar (c : Char) : Bool := isWordChar c || isSpaceChar c || c == '-'

/-- Characters matched by the second substitution in slugify: hyphen or
whitespace. -/

def isDashSpace (c : Char) : Bool := c == '-' || isSpaceChar c

/-- Concatenation of a character-to-string map over a string. -/

def concatMapStr (f : Char → Str) : Str → Str
  | [] => []
  | c :: rest => f c ++ concatMapStr f rest

/-- Model of the NFKD compatibility decomposition of a single code point:
identity on every code point without a listed decomposition (in particular
on all of ASCII, as in Unicode), with the Latin-1 accented vowels used by
the development decomposed into base letter plus combining accent. -/

def decompNFKD (c : Char) : Str :=
  if c.toNat == 0xE9 then [Char.ofNat 0x65, Char.ofNat 0x301]
  else if c.toNat == 0xE0 then [Char.ofNat 0x61, Char.ofNat 0x300]
  else [c]

/-- Model of unicodedata.normalize NFKD. -/

def nfkd (s : Str) : Str := concatMapStr decompNFKD s

/-- Canonical Hangul composition of a leading consonant jamo with a vowel
jamo into an LV syllable, per the Unicode Hangul composition algorithm. -/

def composeLV (a b : Char) : Option Char :=
  if 0x1100 ≤ a.toNat && a.toNat ≤ 0x1112 && 0x1161 ≤ b.toNat && b.toNat ≤ 0x1175 then
    some (Char.ofNat (0xAC00 + (a.toNat - 0x1100) * 588 + (b.toNat - 0x1161) * 28))
  else none

/-- Canonical Hangul composition of an LV syllable with a trailing
consonant jamo into an LVT syllable. -/

def composeT (a b : Char) : Option Char :=
  if 0xAC00 ≤ a.toNat && a.toNat ≤ 0xD7A3 && (a.toNat - 0xAC00) % 28 == 0 &&
     0x11A8 ≤ b.toNat && b.toNat ≤ 0x11C2 then
    some (Char.ofNat (a.toNat + b.toNat - 0x11A7))
  else none

/-- One left-to-right pass composing adjacent pairs with the given partial
composition. -/

def composePairs (f : Char → Char → Option Char) : Str → Str
  | [] => []
  | [c] => [c]
  | a :: b :: rest =>
    match f a b with
    | some c => c :: composePairs f rest
    | none => a :: composePairs f (b :: rest)

/-- Model of unicodedata.normalize NFKC: compatibility decomposition (the
same table as NFKD) followed by canonical composition, modelled by the
Hangul composition passes; identity on code points without compositions,
as in Unicode. -/

def nfkc (s : Str) : Str :=
  composePairs composeT (composePairs composeLV (concatMapStr decompNFKD s))

/-- Model of encoding to ASCII with errors ignored and decoding back:
keeps exactly the code points below 128. -/

def asciiIgnore (s : Str) : Str := s.filter (fun c => c.toNat < 128)

/-- Model of Python str.strip: removes leading and trailing whitespace. -/

def pyStrip (s : Str) : Str :=
  ((s.dropWhile isSpaceChar).reverse.dropWhile isSpaceChar).reverse

/-- Model of the substitution replacing every maximal run of hyphens and
whitespace by a single hyphen. The flag records whether the previous
character belonged to such a run. -/

def collapseAux : Bool → Str → Str
  | _, [] => []
  | false, c :: rest =>
    if isDashSpace c then '-' :: collapseAux true rest
    else c :: collapseAux false rest
  | true, c :: rest =>
    if isDashSpace c then collapseAux true rest
    else c :: collapseAux false rest

def collapseDashSpace (s : Str) : Str := collapseAux false s

/-- Translation of slugify from src/main.py: normalize (NFKC when unicode
is allowed, otherwise NFKD followed by the ASCII filter), delete every
character that is not a word character, whitespace or hyphen, strip, and
collapse runs of hyphens and whitespace into single hyphens. -/

def slugify (s : Str) (allow_unicode : Bool := false) : Str :=
  let n := if allow_unicode then nfkc s else asciiIgnore (nfkd s)
  collapseDashSpace (pyStrip (n.filter keepChar))

/-- Model of os.path.splitext restricted to the extension part: the last
path component is split at its last dot, where dots leading the component
do not count; the extension includes the dot and is empty when the
component has no dot past its leading dots. -/

def splitextExt (p : Str) : Str :=
  let base := (p.reverse.takeWhile (fun c => !(c == '/'))).reverse
  let rest := base.dropWhile (fun c => c == '.')
  if rest.any (fun c => c == '.') then
    '.' :: (rest.reverse.takeWhile (fun c => !(c == '.'))).reverse
  else []

/-- Model of urllib3 Url as the source uses it: scheme, host and path. -/

structure Url where
  scheme : Str
  host : Str
  path : Str
deriving DecidableEq

/-- Rendering of a Url back to a string, as the url property of urllib3. -/

def Url.urlStr (u : Url) : Str := u.scheme ++ chars "://" ++ u.host ++ u.path

def MAIN_SITE : Str := chars "papers.nips.cc"

/-- Translation of the PaperEntry class of src/main.py. -/

structure PaperEntry where
  url : Url
  title : Str
  authors : List Str
deriving DecidableEq

/-- Translation of the PaperEntry constructor: the url is built from the
https scheme, the main site host, and the relative path. -/

def PaperEntry.make (path title : Str) (authors : List Str) : PaperEntry :=
  ⟨⟨chars "https", MAIN_SITE, path⟩, title, authors⟩

/-- Translation of the Paper class of src/main.py. The six document links
are optional because get_paper initialises each to None and only the
anchors present on the page fill them. -/

structure Paper where
  paper_entry : PaperEntry
  abstract : Str
  author_feedback_url : Option Url
  bibtex_url : Option Url
  meta_review_url : Option Url
  paper_url : Option Url
  review_url : Option Url
  supplemental_url : Option Url
deriving DecidableEq

/-- The errors the translated scraper can raise: AttributeError from a
missing DOM node, the generic exception raised for an unrecognised button
label, and AssertionError from the extension check. -/

inductive ScrapeError where
  | attributeError : ScrapeError
  | unrecognizedLink (text href : Str) : ScrapeError
  | assertionError : ScrapeError
deriving DecidableEq

/-- An anchor element: its visible text and its href attribute. -/

structure Anchor where
  text : Str
  href : Str
deriving DecidableEq

/-- Model of a fetched, parsed detail page as get_paper consumes it: the
selection of button-styled anchors in DOM order, and the text of the
abstract node (the 8th child paragraph of the content column, already
flattened by the nested BeautifulSoup parse) when that node is present. -/

structure DetailPage where
  buttons : List Anchor
  abstractNode : Option Str
deriving DecidableEq

/-- Model of one item of the listing-page selection as get_paper_entries
consumes it: its first anchor and the text of its first italic node, each
absent when select_one finds no match. -/

structure ListingItem where
  anchor : Option Anchor
  italic : Option Str
deriving DecidableEq

/-- Model of str.split with the two-character separator of a comma and a
space, as applied to the author text, splitting left to right. -/

def splitCommaSpace : Str → Str → List Str
  | acc, [] => [acc.reverse]
  | acc, ',' :: ' ' :: rest => acc.reverse :: splitCommaSpace [] rest
  | acc, c :: rest => splitCommaSpace (c :: acc) rest

/-- Translation of the loop body of get_paper_entries: the list item must
supply an anchor (href and title) and an italic node (authors, split on
comma-space); a missing node raises AttributeError. -/

def entryStep (acc : List PaperEntry) (it : ListingItem) :
    Except ScrapeError (List PaperEntry) :=
  match it.anchor, it.italic with
  | some a, some itxt =>
      .ok (acc ++ [PaperEntry.make a.href a.text (splitCommaSpace [] itxt)])
  | _, _ => .error .attributeError

/-- Translation of get_paper_entries from src/main.py. A listing page
whose container is absent yields an empty selection. -/

def get_paper_entries (items : List ListingItem) : Except ScrapeError (List PaperEntry) :=
  items.foldlM entryStep []

/-- The six slot variables of get_paper before the Paper is built. -/

structure Slots where
  author_feedback_url : Option Url
  bibtex_url : Option Url
  meta_review_url : Option Url
  paper_url : Option Url
  review_url : Option Url
  supplemental_url : Option Url
deriving DecidableEq

def Slots.empty : Slots := ⟨none, none, none, none, none, none⟩

/-- Model of parse_url applied to the scheme, host and href of an anchor:
the absolute URL with the scheme and host of the entry and the href as
path. -/

def resolveUrl (u : Url) (href : Str) : Url := ⟨u.scheme, u.host, href⟩

/-- Translation of the link-binning loop body of get_paper: the anchor
text is compared against the six exact labels; any other label raises. -/

def binLink (u : Url) (s : Slots) (a : Anchor) : Except ScrapeError Slots :=
  if a.text = chars "AuthorFeedback »" then
    .ok { s with author_feedback_url := some (resolveUrl u a.href) }
  else if a.text = chars "Bibtex »" then
    .ok { s with bibtex_url := some (resolveUrl u a.href) }
  else if a.text = chars "MetaReview »" then
    .ok { s with meta_review_url := some (resolveUrl u a.href) }
  else if a.text = chars "Paper »" then
    .ok { s with paper_url := some (resolveUrl u a.href) }
  else if a.text = chars "Review »" then
    .ok { s with review_url := some (resolveUrl u a.href) }
  else if a.text = chars "Supplemental »" then
    .ok { s with supplemental_url := some (resolveUrl u a.href) }
  else .error (.unrecognizedLink a.text a.href)

/-- Translation of get_paper from src/main.py: bin every button anchor,
then build the Paper with the stripped abstract text; a missing abstract
node raises AttributeError. -/

def get_paper (entry : PaperEntry) (page : DetailPage) : Except ScrapeError Paper := do
  let s ← page.buttons.foldlM (binLink entry.url) Slots.empty
  match page.abstractNode with
  | none => .error .attributeError
  | some t =>
      .ok ⟨entry, pyStrip t, s.author_feedback_url, s.bibtex_url, s.meta_review_url,
           s.paper_url, s.review_url, s.supplemental_url⟩

/-- The four summary counters of the run driver. -/

structure Counters where
  no_author_feedback : Nat
  no_supplemental_material : Nat
  supplemental_material_zipped : Nat
  supplemental_material_pdf : Nat
deriving DecidableEq

/-- Filesystem effects of the run, recorded in chronological order. -/

inductive FsEvent where
  | mkdir (path : List Str) : FsEvent
  | writeFile (path : List Str) (content : List Nat) : FsEvent
  | warning (msg : Str) : FsEvent
deriving DecidableEq

/-- The run driver state: the four counters and the filesystem log. -/

structure RunState where
  counters : Counters
  events : List FsEvent
deriving DecidableEq

/-- Translation of the active per-paper body of the main loop of
src/main.py (the metadata and document download block is commented out in
the source and therefore absent here): create the paper directory; when
the supplemental link is absent, count it and continue; otherwise assert
the extension is pdf or zip, write the fetched bytes to the Supplemental
file, and for a zip count it, create the extraction directory and either
write every extracted entry or record the warning for a bad archive; for
a pdf count it. The fetch oracle models the web client and the unzip
oracle models ZipFile, returning none for a BadZipFile. -/

def processPaper (fetch : Str → List Nat) (unzip : List Nat → Option (List (Str × List Nat)))
    (year : Nat) (entry : PaperEntry) (paper : Paper) (st : RunState) :
    Except ScrapeError RunState :=
  let paper_home : List Str := [chars "out", natToStr year, slugify entry.title]
  let st1 : RunState := { st with events := st.events ++ [FsEvent.mkdir paper_home] }
  match paper.supplemental_url with
  | none =>
      .ok { st1 with counters :=
        { st1.counters with no_supplemental_material := st1.counters.no_supplemental_material + 1 } }
  | some supp =>
      let ext := splitextExt supp.path
      if ext = chars ".pdf" ∨ ext = chars ".zip" then
        let body := fetch supp.urlStr
        let st2 : RunState := { st1 with events :=
          st1.events ++ [FsEvent.writeFile (paper_home ++ [chars "Supplemental" ++ ext]) body] }
        if ext = chars ".zip" then
          let st3 : RunState :=
            { st2 with
              counters := { st2.counters with
                supplemental_material_zipped := st2.counters.supplemental_material_zipped + 1 },
              events := st2.events ++ [FsEvent.mkdir (paper_home ++ [chars "Supplemental"])] }
          match unzip body with
          | some entries =>
              .ok { st3 with events := st3.events ++
                (entries.map (fun e => FsEvent.writeFile (paper_home ++ [chars "Supplemental", e.1]) e.2)) }
          | none =>
              .ok { st3 with events := st3.events ++
                [FsEvent.warning (chars "Failed to unzip faulty zip file")] }
        else
          .ok { st2 with counters := { st2.counters with
            supplemental_material_pdf := st2.counters.supplemental_material_pdf + 1 } }
      else .error .assertionError

/-- The main loop over already extracted papers, threading the run state. -/

def runPapersP (fetch : Str → List Nat) (unzip : List Nat → Option (List (Str × List Nat)))
    (year : Nat) : List (PaperEntry × Paper) → RunState → Except ScrapeError RunState
  | [], st => .ok st
  | p :: rest, st => do
      let st2 ← processPaper fetch unzip year p.1 p.2 st
      runPapersP fetch unzip year rest st2

/-- The main loop over paper entries: fetch the detail page through the
details oracle (keyed by the entry url string), extract the Paper, then
materialize it. -/

def runEntries (details : Str → DetailPage) (fetch : Str → List Nat)
    (unzip : List Nat → Option (List (Str × List Nat))) (year : Nat) :
    List PaperEntry → RunState → Except ScrapeError RunState
  | [], st => .ok st
  | e :: rest, st => do
      let p ← get_paper e (details e.url.urlStr)
      let st2 ← processPaper fetch unzip year e p st
      runEntries details fetch unzip year rest st2

def initialState : RunState := ⟨⟨0, 0, 0, 0⟩, []⟩

/-- Translation of the active scrape-and-store flow of src/main.py for a
given listing selection: extract the entries, then run the main loop from
zeroed counters. -/

def run (details : Str → DetailPage) (fetch : Str → List Nat)
    (unzip : List Nat → Option (List (Str × List Nat))) (year : Nat)
    (items : List ListingItem) : Except ScrapeError RunState := do
  let entries ← get_paper_entries items
  runEntries details fetch unzip year entries initialState

/-- The six document kinds a button anchor can be binned into. -/

inductive DocumentKind where
  | authorFeedback | bibtex | metaReview | paperPdf | review | supplemental
deriving DecidableEq

/-- The exact visible label get_paper matches for each document kind. -/

def labelOf : DocumentKind → Str
  | .authorFeedback => chars "AuthorFeedback »"
  | .bibtex => chars "Bibtex »"
  | .metaReview => chars "MetaReview »"
  | .paperPdf => chars "Paper »"
  | .review => chars "Review »"
  | .supplemental => chars "Supplemental »"

/-- The slot of a Paper holding the link of a given kind. -/

def slotOf : DocumentKind → Paper → Option Url
  | .authorFeedback, p => p.author_feedback_url
  | .bibtex, p => p.bibtex_url
  | .metaReview, p => p.meta_review_url
  | .paperPdf, p => p.paper_url
  | .review, p => p.review_url
  | .supplemental, p => p.supplemental_url

/-- The slot of the intermediate Slots record for a given kind. -/

def slotOfS : DocumentKind → Slots → Option Url
  | .authorFeedback, s => s.author_feedback_url
  | .bibtex, s => s.bibtex_url
  | .metaReview, s => s.meta_review_url
  | .paperPdf, s => s.paper_url
  | .review, s => s.review_url
  | .supplemental, s => s.supplemental_url

/-- The last anchor of the list bearing the label of the given kind, which
is the one whose href wins the binning loop. -/

def lastLabeled (k : DocumentKind) : List Anchor → Option Anchor
  | [] => none
  | a :: rest =>
    match lastLabeled k rest with
    | some x => some x
    | none => if a.text = labelOf k then some a else none

/-- Whether a string has no two adjacent characters that are both hyphen
or whitespace. -/

def noRun : Str → Bool
  | [] => true
  | a :: rest =>
    (match rest.head? with
     | some b => !(isDashSpace a && isDashSpace b)
     | none => true) && noRun rest

/-- Modelled from the spec: collapse any run of whitespace or hyphens into
a single hyphen, written as the spec describes it, one maximal run at a
time. -/

def specCollapse : Str → Str
  | [] => []
  | c :: rest =>
    if isDashSpace c then '-' :: specCollapse (rest.dropWhile isDashSpace)
    else c :: specCollapse rest
termination_by l => l.length
decreasing_by
  · simp only [List.length_cons]
    exact Nat.lt_succ_of_le (List.dropWhile_sublist _).length_le
  · simp only [List.length_cons]
    exact Nat.lt_succ_self _

/-- Modelled from the spec: the ASCII slugify pipeline as §4.3 words it,
compatibility decomposition with non-ASCII remainders dropped, removal of
every character that is not a word character, whitespace or hyphen, a
trim, and the run collapse. -/

def slugifySpecAscii (s : Str) : Str :=
  specCollapse (pyStrip ((asciiIgnore (nfkd s)).filter keepChar))

def entry0 : PaperEntry :=
  PaperEntry.make (chars "/paper/2020/hash/x-Abstract.html") (chars "A Title") [chars "Alice", chars "Bob"]

def page6 : DetailPage :=
  ⟨[⟨chars "AuthorFeedback »", chars "/f1.pdf"⟩, ⟨chars "Bibtex »", chars "/f2.bib"⟩,
    ⟨chars "MetaReview »", chars "/f3.html"⟩, ⟨chars "Paper »", chars "/f4.pdf"⟩,
    ⟨chars "Review »", chars "/f5.html"⟩, ⟨chars "Supplemental »", chars "/f6.zip"⟩],
   some (chars "  An abstract.  ")⟩

def fetch0 : Str → List Nat := fun _ => [1, 2, 3]

def unzipNone : List Nat → Option (List (Str × List Nat)) := fun _ => none

def paper0 : Paper := ⟨entry0, chars "A", none, none, none, none, none, none⟩

def paperZip : Paper :=
  ⟨entry0, chars "A", none, none, none, none, none, some ⟨chars "https", MAIN_SITE, chars "/s.zip"⟩⟩

/-- Update of the slot variable of a given kind, as one branch of the
binning chain performs it. -/

def updateSlot : DocumentKind → Option Url → Slots → Slots
  | .authorFeedback, v, s => { s with author_feedback_url := v }
  | .bibtex, v, s => { s with bibtex_url := v }
  | .metaReview, v, s => { s with meta_review_url := v }
  | .paperPdf, v, s => { s with paper_url := v }
  | .review, v, s => { s with review_url := v }
  | .supplemental, v, s => { s with supplemental_url := v }

/-- Whether an anchor text equals one of the six recognised labels. -/

def recognizedLabel (t : Str) : Bool :=
  decide (t = labelOf .authorFeedback) || decide (t = labelOf .bibtex) ||
  decide (t = labelOf .metaReview) || decide (t = labelOf .paperPdf) ||
  decide (t = labelOf .review) || decide (t = labelOf .supplemental)

def pageBad : DetailPage :=
  ⟨[⟨chars "Paper »", chars "/f4.pdf"⟩, ⟨chars "Slides »", chars "/s.pdf"⟩],
   some (chars "A")⟩

def pageEmpty : DetailPage := ⟨[], some (chars "Abs")⟩

/-- The output directory of a paper: out, the year, and the slug of the
title. -/

def homeOf (year : Nat) (e : PaperEntry) : List Str :=
  [chars "out", natToStr year, slugify e.title]

def paperTxt : Paper :=
  ⟨entry0, chars "A", none, none, none, none, none,
   some ⟨chars "https", MAIN_SITE, chars "/s.txt"⟩⟩

/-- Whether the supplemental link of a paper resolves to the given file
extension. -/

def suppHasExt (ext : Str) (p : Paper) : Bool :=
  match p.supplemental_url with
  | some u => splitextExt u.path == ext
  | none => false

/-- The number of processed papers without an author feedback link. -/

def countNoFeedback (papers : List (PaperEntry × Paper)) : Nat :=
  papers.countP (fun q => q.2.author_feedback_url.isNone)

/-- The number of processed papers without a supplemental link. -/

def countNoSupp (papers : List (PaperEntry × Paper)) : Nat :=
  papers.countP (fun q => q.2.supplemental_url.isNone)

/-- The number of processed papers whose supplemental material is a zip. -/

def countSuppZip (papers : List (PaperEntry × Paper)) : Nat :=
  papers.countP (fun q => suppHasExt (chars ".zip") q.2)

/-- The number of processed papers whose supplemental material is a pdf. -/

def countSuppPdf (papers : List (PaperEntry × Paper)) : Nat :=
  papers.countP (fun q => suppHasExt (chars ".pdf") q.2)

def c0W : Counters := ⟨0, 0, 0, 0⟩

def stW7 : RunState :=
  ⟨⟨0, 1, 0, 0⟩, [FsEvent.mkdir [chars "out", chars "2020", chars "A-Title"]]⟩

/-- The slug of a paper directory created directly under out/<year>: a
directory creation with exactly three path components. -/

def paperDirOf : FsEvent → Option Str
  | .mkdir [_, _, slug] => some slug
  | _ => none

/-- The paths of all file writes in an event log. -/

def writeTargets (evts : List FsEvent) : List (List Str) :=
  evts.filterMap (fun ev => match ev with
    | .writeFile p _ => some p
    | _ => none)

def detailsEmpty : Str → DetailPage := fun _ => pageEmpty

def items2 : List ListingItem :=
  [⟨some ⟨chars "Paper One", chars "/paper/2020/hash/one-Abstract.html"⟩,
    some (chars "Ann Alpha, Bob Beta")⟩,
   ⟨some ⟨chars "Paper Two", chars "/paper/2020/hash/two-Abstract.html"⟩,
    some (chars "Cara Gamma")⟩]

def stW8 : RunState :=
  ⟨⟨0, 1, 0, 0⟩, [FsEvent.mkdir [chars "out", chars "2020", chars "A-Title"]]⟩

theorem decompNFKD_ascii (c : Char) (h : c.toNat < 128) : decompNFKD c = [c] := by
  simp only [decompNFKD, beq_iff_eq]
  rw [if_neg (by omega), if_neg (by omega)]

theorem nfkd_ascii (s : Str) (h : ∀ c ∈ s, c.toNat < 128) : nfkd s = s := by
  induction s with
  | nil => rfl
  | cons c rest ih =>
    have hc : c.toNat < 128 := h c (List.mem_cons_self c rest)
    have hrest : ∀ d ∈ rest, d.toNat < 128 := fun d hd => h d (List.mem_cons_of_mem c hd)
    show concatMapStr decompNFKD (c :: rest) = c :: rest
    simp only [concatMapStr, decompNFKD_ascii c hc]
    have := ih hrest
    simp only [nfkd] at this
    simp [this]

theorem mem_dropWhile {p : Char → Bool} {l : Str} {c : Char} (h : c ∈ l.dropWhile p) : c ∈ l := by
  induction l with
  | nil => simp at h
  | cons a rest ih =>
    rw [List.dropWhile_cons] at h
    by_cases hp : p a = true
    · simp only [hp, if_true] at h
      exact List.mem_cons_of_mem a (ih h)
    · simp only [Bool.not_eq_true] at hp
      simp only [hp] at h
      simpa using h

theorem mem_pyStrip {l : Str} {c : Char} (h : c ∈ pyStrip l) : c ∈ l := by
  simp only [pyStrip] at h
  rw [List.mem_reverse] at h
  have h2 := mem_dropWhile h
  rw [List.mem_reverse] at h2
  exact mem_dropWhile h2

theorem filter_all {p : Char → Bool} {l : Str} (h : ∀ c ∈ l, p c = true) : l.filter p = l := by
  induction l with
  | nil => rfl
  | cons a rest ih =>
    rw [List.filter_cons, if_pos (h a (List.mem_cons_self a rest))]
    rw [ih fun d hd => h d (List.mem_cons_of_mem a hd)]

theorem dropWhile_all_false {p : Char → Bool} {l : Str} (h : ∀ c ∈ l, p c = false) :
    l.dropWhile p = l := by
  cases l with
  | nil => rfl
  | cons a rest =>
    rw [List.dropWhile_cons, if_neg]
    simp [h a (List.mem_cons_self a rest)]

theorem pyStrip_all_nonspace {l : Str} (h : ∀ c ∈ l, isSpaceChar c = false) : pyStrip l = l := by
  simp only [pyStrip]
  rw [dropWhile_all_false h]
  rw [dropWhile_all_false (fun c hc => h c (List.mem_reverse.mp hc))]
  exact List.reverse_reverse l

theorem collapseAux_false_cons_pos {a : Char} {rest : Str} (h : isDashSpace a = true) :
    collapseAux false (a :: rest) = '-' :: collapseAux true rest := by
  simp only [collapseAux]
  rw [if_pos h]

theorem collapseAux_true_cons_pos {a : Char} {rest : Str} (h : isDashSpace a = true) :
    collapseAux true (a :: rest) = collapseAux true rest := by
  simp only [collapseAux]
  rw [if_pos h]

theorem collapseAux_cons_neg {a : Char} {rest : Str} (flag : Bool) (h : isDashSpace a = false) :
    collapseAux flag (a :: rest) = a :: collapseAux false rest := by
  cases flag <;> (simp only [collapseAux]; rw [if_neg (by simp [h])])

theorem collapseAux_mem {l : Str} : ∀ {flag : Bool} {c : Char}, c ∈ collapseAux flag l →
    c = '-' ∨ (c ∈ l ∧ isDashSpace c = false) := by
  induction l with
  | nil => intro flag c h; cases flag <;> simp [collapseAux] at h
  | cons a rest ih =>
    intro flag c h
    by_cases hd : isDashSpace a = true
    · cases flag with
      | true =>
        rw [collapseAux_true_cons_pos hd] at h
        rcases ih h with h1 | ⟨h2, h3⟩
        · exact Or.inl h1
        · exact Or.inr ⟨List.mem_cons_of_mem a h2, h3⟩
      | false =>
        rw [collapseAux_false_cons_pos hd] at h
        rcases List.mem_cons.mp h with h1 | h1
        · exact Or.inl h1
        · rcases ih h1 with h2 | ⟨h3, h4⟩
          · exact Or.inl h2
          · exact Or.inr ⟨List.mem_cons_of_mem a h3, h4⟩
    · have hd' : isDashSpace a = false := by simpa using hd
      rw [collapseAux_cons_neg flag hd'] at h
      rcases List.mem_cons.mp h with h1 | h1
      · subst h1; exact Or.inr ⟨List.mem_cons_self c rest, hd'⟩
      · rcases ih h1 with h2 | ⟨h3, h4⟩
        · exact Or.inl h2
        · exact Or.inr ⟨List.mem_cons_of_mem a h3, h4⟩

theorem collapseAux_true_head {l : Str} {c : Char}
    (h : (collapseAux true l).head? = some c) : isDashSpace c = false := by
  induction l with
  | nil => simp [collapseAux] at h
  | cons a rest ih =>
    by_cases hd : isDashSpace a = true
    · rw [collapseAux_true_cons_pos hd] at h
      exact ih h
    · have hd' : isDashSpace a = false := by simpa using hd
      rw [collapseAux_cons_neg true hd'] at h
      simp only [List.head?_cons, Option.some.injEq] at h
      subst h
      exact hd'

theorem collapseAux_noRun (l : Str) : ∀ flag, noRun (collapseAux flag l) = true := by
  induction l with
  | nil => intro flag; cases flag <;> rfl
  | cons a rest ih =>
    intro flag
    by_cases hd : isDashSpace a = true
    · cases flag with
      | true =>
        rw [collapseAux_true_cons_pos hd]
        exact ih true
      | false =>
        rw [collapseAux_false_cons_pos hd]
        simp only [noRun, Bool.and_eq_true]
        refine ⟨?_, ih true⟩
        cases hh : (collapseAux true rest).head? with
        | none => simp
        | some b => simp only [collapseAux_true_head hh, Bool.and_false, Bool.not_false]
    · have hd' : isDashSpace a = false := by simpa using hd
      rw [collapseAux_cons_neg flag hd']
      simp only [noRun, Bool.and_eq_true]
      refine ⟨?_, ih false⟩
      cases hh : (collapseAux false rest).head? with
      | none => simp
      | some b => simp only [hd', Bool.false_and, Bool.not_false]

theorem noRun_cons {a : Char} {rest : Str} (h : noRun (a :: rest) = true) :
    noRun rest = true ∧
      ∀ b, rest.head? = some b → isDashSpace a = true → isDashSpace b = false := by
  simp only [noRun, Bool.and_eq_true] at h
  refine ⟨h.2, fun b hb hda => ?_⟩
  have h1 := h.1
  simp only [hb] at h1
  rw [hda] at h1
  simpa using h1

theorem collapseAux_true_eq_false {l : Str}
    (h : ∀ c, l.head? = some c → isDashSpace c = false) :
    collapseAux true l = collapseAux false l := by
  cases l with
  | nil => rfl
  | cons a rest =>
    have ha := h a (by simp)
    rw [collapseAux_cons_neg true ha, collapseAux_cons_neg false ha]

theorem collapseAux_fixpoint {l : Str} (hs : ∀ c ∈ l, isSpaceChar c = false)
    (hr : noRun l = true) : collapseAux false l = l := by
  induction l with
  | nil => rfl
  | cons a rest ih =>
    obtain ⟨hr2, hhead⟩ := noRun_cons hr
    have ihr := ih (fun c hc => hs c (List.mem_cons_of_mem a hc)) hr2
    by_cases hd : isDashSpace a = true
    · have ha : a = '-' := by
        have hsp := hs a (List.mem_cons_self a rest)
        simp only [isDashSpace, hsp, Bool.or_false, beq_iff_eq] at hd
        exact hd
      rw [collapseAux_false_cons_pos hd,
          collapseAux_true_eq_false (fun c hc => hhead c hc hd), ihr, ha]
    · have hd' : isDashSpace a = false := by simpa using hd
      rw [collapseAux_cons_neg false hd', ihr]

theorem slugify_false_eq (s : Str) :
    slugify s = collapseAux false (pyStrip ((asciiIgnore (nfkd s)).filter keepChar)) := rfl

theorem slugify_output_mem (s : Str) {c : Char} (h : c ∈ slugify s) :
    c.toNat < 128 ∧ (isWordChar c = true ∨ c = '-') ∧ isSpaceChar c = false := by
  rw [slugify_false_eq] at h
  rcases collapseAux_mem h with h1 | ⟨h2, h3⟩
  · subst h1
    exact ⟨by decide, Or.inr rfl, by decide⟩
  · have h4 := mem_pyStrip h2
    rw [List.mem_filter] at h4
    obtain ⟨h5, hkeep⟩ := h4
    have hascii : c.toNat < 128 := by
      simp only [asciiIgnore] at h5
      rw [List.mem_filter] at h5
      simpa using h5.2
    have hspace : isSpaceChar c = false := by
      simp only [isDashSpace, Bool.or_eq_false_iff] at h3
      exact h3.2
    have hword : isWordChar c = true := by
      simp only [keepChar, Bool.or_eq_true] at hkeep
      rcases hkeep with (hw | hsp) | hdash
      · exact hw
      · rw [hspace] at hsp
        exact absurd hsp (by simp)
      · simp only [isDashSpace, Bool.or_eq_false_iff] at h3
        rw [h3.1] at hdash
        exact absurd hdash (by simp)
    exact ⟨hascii, Or.inl hword, hspace⟩

theorem slugify_noRun (s : Str) : noRun (slugify s) = true := by
  rw [slugify_false_eq]
  exact collapseAux_noRun _ false

theorem slugify_fixpoint {t : Str}
    (h1 : ∀ c ∈ t, c.toNat < 128 ∧ (isWordChar c = true ∨ c = '-') ∧ isSpaceChar c = false)
    (h2 : noRun t = true) : slugify t = t := by
  have hspace : ∀ c ∈ t, isSpaceChar c = false := fun c hc => (h1 c hc).2.2
  have hn : nfkd t = t := nfkd_ascii t (fun c hc => (h1 c hc).1)
  have ha : asciiIgnore t = t := filter_all (fun c hc => by simpa using (h1 c hc).1)
  have hk : t.filter keepChar = t := by
    apply filter_all
    intro c hc
    rcases (h1 c hc).2.1 with hw | hd
    · simp [keepChar, hw]
    · simp [keepChar, hd]
  have hp : pyStrip t = t := pyStrip_all_nonspace hspace
  rw [slugify_false_eq, hn, ha, hk, hp]
  exact collapseAux_fixpoint hspace h2

theorem collapse_spec_aux : ∀ n : Nat, ∀ l : Str, l.length ≤ n →
    collapseAux false l = specCollapse l ∧
    collapseAux true l = specCollapse (l.dropWhile isDashSpace) := by
  intro n
  induction n with
  | zero =>
    intro l hl
    have hnil : l = [] := List.eq_nil_of_length_eq_zero (Nat.le_zero.mp hl)
    subst hnil
    constructor <;> simp [collapseAux, specCollapse]
  | succ n ih =>
    intro l hl
    cases l with
    | nil => constructor <;> simp [collapseAux, specCollapse]
    | cons c rest =>
      simp only [List.length_cons, Nat.succ_le_succ_iff] at hl
      by_cases hd : isDashSpace c = true
      · constructor
        · rw [collapseAux_false_cons_pos hd, (ih rest hl).2]
          simp only [specCollapse]
          rw [if_pos hd]
        · rw [collapseAux_true_cons_pos hd, (ih rest hl).2, List.dropWhile_cons, if_pos hd]
      · have hd' : isDashSpace c = false := by simpa using hd
        constructor
        · rw [collapseAux_cons_neg false hd', (ih rest hl).1]
          simp only [specCollapse]
          rw [if_neg hd]
        · rw [collapseAux_cons_neg true hd', (ih rest hl).1, List.dropWhile_cons, if_neg hd]
          simp only [specCollapse]
          rw [if_neg hd]

theorem collapse_eq_spec (l : Str) : collapseDashSpace l = specCollapse l :=
  (collapse_spec_aux l.length l (Nat.le_refl _)).1

theorem slugify_eq_spec (s : Str) : slugify s = slugifySpecAscii s := by
  rw [slugify_false_eq]
  exact collapse_eq_spec _

/-- C2, counterexample: idempotence fails with allowUnicode true. On the
string of a Hangul leading consonant jamo, an exclamation mark and a
Hangul vowel jamo, the first pass removes the exclamation mark and leaves
the two jamo adjacent; the second pass then composes them into one Hangul
syllable under NFKC, so the output changes. -/
theorem slugify_unicode_not_idempotent :
    ¬ slugify (slugify [Char.ofNat 0x1100, '!', Char.ofNat 0x1161] true) true =
        slugify [Char.ofNat 0x1100, '!', Char.ofNat 0x1161] true := by decide

/-- C2, amended: slugify is idempotent for allowUnicode false: for every
string s, slugify (slugify s) = slugify s byte for byte. -/
theorem slugify_idempotent_ascii (s : Str) : slugify (slugify s) = slugify s :=
  slugify_fixpoint (fun _ hc => slugify_output_mem s hc) (slugify_noRun s)

/-- C3: with allowUnicode false, slugify applies compatibility
decomposition and drops non-ASCII remainders, strips every character that
is not a word character, whitespace or hyphen, trims leading and trailing
whitespace, and collapses each run of whitespace or hyphens into a single
hyphen (the pipeline slugifySpecAscii); in particular the slug of the
title Attention Is All You Need is Attention-Is-All-You-Need. -/
theorem slugify_ascii_follows_spec :
    (∀ s : Str, slugify s = slugifySpecAscii s) ∧
    slugify (chars "Attention Is All You Need") = chars "Attention-Is-All-You-Need" := by
  refine ⟨slugify_eq_spec, by decide⟩

theorem slotOfS_update_self (k : DocumentKind) (v : Option Url) (s : Slots) :
    slotOfS k (updateSlot k v s) = v := by
  cases k <;> rfl

theorem slotOfS_update_ne {k k2 : DocumentKind} (h : ¬ k = k2) (v : Option Url) (s : Slots) :
    slotOfS k (updateSlot k2 v s) = slotOfS k s := by
  cases k <;> cases k2 <;> first | exact absurd rfl h | rfl

theorem slotOfS_empty (k : DocumentKind) : slotOfS k Slots.empty = none := by
  cases k <;> rfl

theorem labelOf_inj : ∀ k1 k2 : DocumentKind, labelOf k1 = labelOf k2 → k1 = k2 := by
  intro k1 k2
  cases k1 <;> cases k2 <;> decide

theorem recognized_exists {t : Str} (h : recognizedLabel t = true) :
    ∃ k : DocumentKind, t = labelOf k := by
  simp only [recognizedLabel, Bool.or_eq_true, decide_eq_true_eq] at h
  rcases h with ((((h | h) | h) | h) | h) | h
  · exact ⟨.authorFeedback, h⟩
  · exact ⟨.bibtex, h⟩
  · exact ⟨.metaReview, h⟩
  · exact ⟨.paperPdf, h⟩
  · exact ⟨.review, h⟩
  · exact ⟨.supplemental, h⟩

theorem recognized_false {t : Str} (h : recognizedLabel t = false) :
    ∀ k : DocumentKind, ¬ t = labelOf k := by
  intro k hk
  simp only [recognizedLabel, Bool.or_eq_false_iff, decide_eq_false_iff_not] at h
  cases k
  · exact h.1.1.1.1.1 hk
  · exact h.1.1.1.1.2 hk
  · exact h.1.1.1.2 hk
  · exact h.1.1.2 hk
  · exact h.1.2 hk
  · exact h.2 hk

theorem binLink_eq (u : Url) (s : Slots) (a : Anchor) (k : DocumentKind)
    (h : a.text = labelOf k) :
    binLink u s a = .ok (updateSlot k (some (resolveUrl u a.href)) s) := by
  cases k with
  | authorFeedback =>
    simp only [labelOf] at h
    simp only [binLink, updateSlot]
    rw [if_pos h]
  | bibtex =>
    simp only [labelOf] at h
    simp only [binLink, updateSlot]
    rw [if_neg (by rw [h]; decide), if_pos h]
  | metaReview =>
    simp only [labelOf] at h
    simp only [binLink, updateSlot]
    rw [if_neg (by rw [h]; decide), if_neg (by rw [h]; decide), if_pos h]
  | paperPdf =>
    simp only [labelOf] at h
    simp only [binLink, updateSlot]
    rw [if_neg (by rw [h]; decide), if_neg (by rw [h]; decide), if_neg (by rw [h]; decide),
        if_pos h]
  | review =>
    simp only [labelOf] at h
    simp only [binLink, updateSlot]
    rw [if_neg (by rw [h]; decide), if_neg (by rw [h]; decide), if_neg (by rw [h]; decide),
        if_neg (by rw [h]; decide), if_pos h]
  | supplemental =>
    simp only [labelOf] at h
    simp only [binLink, updateSlot]
    rw [if_neg (by rw [h]; decide), if_neg (by rw [h]; decide), if_neg (by rw [h]; decide),
        if_neg (by rw [h]; decide), if_neg (by rw [h]; decide), if_pos h]

theorem binLink_unrecognized (u : Url) (s : Slots) (a : Anchor)
    (h : recognizedLabel a.text = false) :
    binLink u s a = .error (.unrecognizedLink a.text a.href) := by
  have hk := recognized_false h
  have h1 : ¬ a.text = chars "AuthorFeedback »" := hk .authorFeedback
  have h2 : ¬ a.text = chars "Bibtex »" := hk .bibtex
  have h3 : ¬ a.text = chars "MetaReview »" := hk .metaReview
  have h4 : ¬ a.text = chars "Paper »" := hk .paperPdf
  have h5 : ¬ a.text = chars "Review »" := hk .review
  have h6 : ¬ a.text = chars "Supplemental »" := hk .supplemental
  simp only [binLink]
  rw [if_neg h1, if_neg h2, if_neg h3, if_neg h4, if_neg h5, if_neg h6]

theorem foldl_binLink_ok (u : Url) : ∀ (buttons : List Anchor) (s : Slots),
    (∀ a ∈ buttons, recognizedLabel a.text = true) →
    ∃ s2, buttons.foldlM (binLink u) s = .ok s2 ∧
      ∀ k, slotOfS k s2 = (match lastLabeled k buttons with
        | some a => some (resolveUrl u a.href)
        | none => slotOfS k s) := by
  intro buttons
  induction buttons with
  | nil =>
    intro s _
    exact ⟨s, rfl, fun k => rfl⟩
  | cons a rest ih =>
    intro s h
    obtain ⟨k0, hk0⟩ := recognized_exists (h a (List.mem_cons_self a rest))
    obtain ⟨s2, hfold, hslots⟩ := ih (updateSlot k0 (some (resolveUrl u a.href)) s)
      (fun b hb => h b (List.mem_cons_of_mem a hb))
    refine ⟨s2, ?_, ?_⟩
    · simp only [List.foldlM]
      rw [binLink_eq u s a k0 hk0]
      exact hfold
    · intro k
      rw [hslots k]
      simp only [lastLabeled]
      cases hlast : lastLabeled k rest with
      | some x => rfl
      | none =>
        by_cases hk : a.text = labelOf k
        · have hkk : k = k0 := labelOf_inj k k0 (hk ▸ hk0)
          rw [if_pos hk]
          subst hkk
          rw [slotOfS_update_self]
        · rw [if_neg hk]
          have hne : ¬ k = k0 := fun he => hk (he ▸ hk0)
          rw [slotOfS_update_ne hne]

theorem foldl_binLink_error (u : Url) : ∀ (buttons : List Anchor) (s : Slots),
    (∃ a ∈ buttons, recognizedLabel a.text = false) →
    ∃ t h2, buttons.foldlM (binLink u) s = .error (.unrecognizedLink t h2) := by
  intro buttons
  induction buttons with
  | nil =>
    rintro s ⟨a, ha, _⟩
    simp at ha
  | cons a rest ih =>
    rintro s ⟨b, hb, hbad⟩
    cases hrec : recognizedLabel a.text with
    | false =>
      refine ⟨a.text, a.href, ?_⟩
      simp only [List.foldlM]
      rw [binLink_unrecognized u s a hrec]
      rfl
    | true =>
      obtain ⟨k0, hk0⟩ := recognized_exists hrec
      have hbrest : b ∈ rest := by
        rcases List.mem_cons.mp hb with h1 | h1
        · exfalso
          subst h1
          rw [hrec] at hbad
          exact absurd hbad (by simp)
        · exact h1
      obtain ⟨t, h2, hres⟩ := ih (updateSlot k0 (some (resolveUrl u a.href)) s)
        ⟨b, hbrest, hbad⟩
      refine ⟨t, h2, ?_⟩
      simp only [List.foldlM]
      rw [binLink_eq u s a k0 hk0]
      exact hres

theorem lastLabeled_none {k : DocumentKind} : ∀ {l : List Anchor},
    (∀ a ∈ l, ¬ a.text = labelOf k) → lastLabeled k l = none := by
  intro l
  induction l with
  | nil => intro _; rfl
  | cons a rest ih =>
    intro h
    simp only [lastLabeled]
    rw [ih (fun b hb => h b (List.mem_cons_of_mem a hb))]
    rw [if_neg (h a (List.mem_cons_self a rest))]

theorem slotOf_build (entry : PaperEntry) (ab : Str) (s : Slots) (k : DocumentKind) :
    slotOf k ⟨entry, ab, s.author_feedback_url, s.bibtex_url, s.meta_review_url,
      s.paper_url, s.review_url, s.supplemental_url⟩ = slotOfS k s := by
  cases k <;> rfl

theorem get_paper_eq_of_fold_ok {entry : PaperEntry} {page : DetailPage} {s2 : Slots}
    (h : page.buttons.foldlM (binLink entry.url) Slots.empty = .ok s2) :
    get_paper entry page =
      (match page.abstractNode with
       | none => .error .attributeError
       | some t =>
           .ok ⟨entry, pyStrip t, s2.author_feedback_url, s2.bibtex_url, s2.meta_review_url,
                s2.paper_url, s2.review_url, s2.supplemental_url⟩) := by
  simp only [get_paper, h]
  rfl

theorem get_paper_eq_of_fold_error {entry : PaperEntry} {page : DetailPage} {e : ScrapeError}
    (h : page.buttons.foldlM (binLink entry.url) Slots.empty = .error e) :
    get_paper entry page = .error e := by
  simp only [get_paper, h]
  rfl

/-- C1: on a detail page all of whose button-styled anchors carry one of
the six exact labels, get_paper returns a Paper in which the slot of each
document kind holds the absolute URL formed from the scheme and host of
the entry plus the href of the anchor bearing that label (the last such
anchor when several do, none when none does); and on a page with at least
one button-styled anchor whose label is none of the six, get_paper fails
with the unrecognised-link error instead of returning a Paper. -/
theorem get_paper_link_scan (entry : PaperEntry) (page : DetailPage) :
    ((∀ a ∈ page.buttons, recognizedLabel a.text = true) →
      ∀ t, page.abstractNode = some t →
        ∃ p, get_paper entry page = .ok p ∧
          ∀ k, slotOf k p =
            (lastLabeled k page.buttons).map (fun a => resolveUrl entry.url a.href)) ∧
    ((∃ a ∈ page.buttons, recognizedLabel a.text = false) →
      ∃ t h2, get_paper entry page = .error (.unrecognizedLink t h2)) := by
  constructor
  · intro hrec t habs
    obtain ⟨s2, hfold, hslots⟩ := foldl_binLink_ok entry.url page.buttons Slots.empty hrec
    refine ⟨⟨entry, pyStrip t, s2.author_feedback_url, s2.bibtex_url, s2.meta_review_url,
      s2.paper_url, s2.review_url, s2.supplemental_url⟩, ?_, ?_⟩
    · rw [get_paper_eq_of_fold_ok hfold, habs]
    · intro k
      rw [slotOf_build, hslots k]
      cases hl : lastLabeled k page.buttons with
      | some x => rfl
      | none => exact slotOfS_empty k
  · intro hbad
    obtain ⟨t, h2, hfold⟩ := foldl_binLink_error entry.url page.buttons Slots.empty hbad
    exact ⟨t, h2, get_paper_eq_of_fold_error hfold⟩

/-- Witness for C1: on a concrete page carrying all six labels the slots
are filled as stated, and on a concrete page carrying a seventh label the
extraction fails with the unrecognised-link error. -/
theorem get_paper_link_scan_witness :
    (∃ p, get_paper entry0 page6 = .ok p ∧
      ∀ k, slotOf k p =
        (lastLabeled k page6.buttons).map (fun a => resolveUrl entry0.url a.href)) ∧
    (∃ t h2, get_paper entry0 pageBad = .error (.unrecognizedLink t h2)) :=
  ⟨(get_paper_link_scan entry0 page6).1 (by decide) (chars "  An abstract.  ") rfl,
   (get_paper_link_scan entry0 pageBad).2
     ⟨⟨chars "Slides »", chars "/s.pdf"⟩, by decide, by decide⟩⟩

/-- C10: get_paper succeeds on any detail page in which any subset of the
six labelled button anchors is absent, including the Paper and Bibtex
anchors, returning a Paper in which every document kind without an anchor
has its URL slot equal to none rather than raising an error. -/
theorem get_paper_missing_anchors_ok (entry : PaperEntry) (page : DetailPage) (t : Str)
    (hrec : ∀ a ∈ page.buttons, recognizedLabel a.text = true)
    (habs : page.abstractNode = some t) :
    ∃ p, get_paper entry page = .ok p ∧
      ∀ k, (∀ a ∈ page.buttons, ¬ a.text = labelOf k) → slotOf k p = none := by
  obtain ⟨s2, hfold, hslots⟩ := foldl_binLink_ok entry.url page.buttons Slots.empty hrec
  refine ⟨⟨entry, pyStrip t, s2.author_feedback_url, s2.bibtex_url, s2.meta_review_url,
    s2.paper_url, s2.review_url, s2.supplemental_url⟩, ?_, ?_⟩
  · rw [get_paper_eq_of_fold_ok hfold, habs]
  · intro k hnone
    rw [slotOf_build, hslots k, lastLabeled_none hnone]
    exact slotOfS_empty k

/-- Witness for C10: on a concrete page with no button anchors at all,
get_paper succeeds and every slot is none. -/
theorem get_paper_missing_anchors_witness :
    ∃ p, get_paper entry0 pageEmpty = .ok p ∧
      ∀ k, (∀ a ∈ pageEmpty.buttons, ¬ a.text = labelOf k) → slotOf k p = none :=
  get_paper_missing_anchors_ok entry0 pageEmpty (chars "Abs") (by decide) rfl

theorem except_bind_ok {ε α β : Type} (x : α) (g : α → Except ε β) :
    (Except.ok x >>= g) = g x := rfl

theorem except_bind_error {ε α β : Type} (e : ε) (g : α → Except ε β) :
    ((Except.error e : Except ε α) >>= g) = .error e := rfl

theorem entryStep_ok {acc : List PaperEntry} {it : ListingItem} {a : Anchor} {i : Str}
    (ha : it.anchor = some a) (hi : it.italic = some i) :
    entryStep acc it = .ok (acc ++ [PaperEntry.make a.href a.text (splitCommaSpace [] i)]) := by
  simp [entryStep, ha, hi]

theorem entryStep_error {acc : List PaperEntry} {it : ListingItem}
    (h : it.anchor = none ∨ it.italic = none) :
    entryStep acc it = .error .attributeError := by
  rcases h with h | h
  · simp [entryStep, h]
  · cases ha : it.anchor <;> simp [entryStep, ha, h]

theorem gpe_fold_error_iff : ∀ (items : List ListingItem) (acc : List PaperEntry),
    (items.foldlM entryStep acc = .error .attributeError ↔
      ∃ it ∈ items, it.anchor = none ∨ it.italic = none) := by
  intro items
  induction items with
  | nil =>
    intro acc
    constructor
    · intro h
      exact absurd h (by intro hcon; cases hcon)
    · rintro ⟨it, hit, _⟩
      simp at hit
  | cons it rest ih =>
    intro acc
    cases ha : it.anchor with
    | none =>
      constructor
      · intro _
        exact ⟨it, List.mem_cons_self it rest, Or.inl ha⟩
      · intro _
        simp only [List.foldlM]
        rw [entryStep_error (Or.inl ha), except_bind_error]
    | some a =>
      cases hi : it.italic with
      | none =>
        constructor
        · intro _
          exact ⟨it, List.mem_cons_self it rest, Or.inr hi⟩
        · intro _
          simp only [List.foldlM]
          rw [entryStep_error (Or.inr hi), except_bind_error]
      | some i =>
        simp only [List.foldlM]
        rw [entryStep_ok ha hi, except_bind_ok]
        constructor
        · intro h
          obtain ⟨b, hb, hbad⟩ := (ih _).mp h
          exact ⟨b, List.mem_cons_of_mem it hb, hbad⟩
        · rintro ⟨b, hb, hbad⟩
          rcases List.mem_cons.mp hb with h1 | h1
          · exfalso
            subst h1
            rcases hbad with h2 | h2
            · rw [ha] at h2
              exact absurd h2 (by simp)
            · rw [hi] at h2
              exact absurd h2 (by simp)
          · exact (ih _).mpr ⟨b, h1, hbad⟩

theorem gpe_fold_total : ∀ (items : List ListingItem) (acc : List PaperEntry),
    (∃ l, items.foldlM entryStep acc = .ok l) ∨
      items.foldlM entryStep acc = .error .attributeError := by
  intro items
  induction items with
  | nil =>
    intro acc
    exact Or.inl ⟨acc, rfl⟩
  | cons it rest ih =>
    intro acc
    cases ha : it.anchor with
    | none =>
      right
      simp only [List.foldlM]
      rw [entryStep_error (Or.inl ha), except_bind_error]
    | some a =>
      cases hi : it.italic with
      | none =>
        right
        simp only [List.foldlM]
        rw [entryStep_error (Or.inr hi), except_bind_error]
      | some i =>
        simp only [List.foldlM]
        rw [entryStep_ok ha hi, except_bind_ok]
        exact ih _

/-- C9 (amended): get_paper_entries fails, with the AttributeError raised
at the missing node, exactly when some selected list item lacks its anchor
or its italic node; and when every item carries both nodes it returns an
entry list without error. An absent list container gives the empty
selection, for which the right-hand side is false, so extraction silently
succeeds instead of failing. -/
theorem get_paper_entries_failure (items : List ListingItem) :
    (get_paper_entries items = .error .attributeError ↔
      ∃ it ∈ items, it.anchor = none ∨ it.italic = none) ∧
    ((∀ it ∈ items, ¬ it.anchor = none ∧ ¬ it.italic = none) →
      ∃ l, get_paper_entries items = .ok l) := by
  constructor
  · exact gpe_fold_error_iff items []
  · intro hgood
    rcases gpe_fold_total items [] with h | h
    · exact h
    · exfalso
      obtain ⟨it, hit, hbad⟩ := (gpe_fold_error_iff items []).mp h
      rcases hbad with h1 | h1
      · exact (hgood it hit).1 h1
      · exact (hgood it hit).2 h1

/-- C9, counterexample: on a listing page whose expected list container is
absent the selection of list items is empty, and get_paper_entries
returns the empty entry list without any error, contradicting the claim
that an absent container makes it fail. -/
theorem get_paper_entries_empty_selection_ok : get_paper_entries [] = .ok [] := rfl

theorem processPaper_eq_none {f : Str → List Nat} {z : List Nat → Option (List (Str × List Nat))}
    {y : Nat} {e : PaperEntry} {paper : Paper} {c : Counters} {evts : List FsEvent}
    (h : paper.supplemental_url = none) :
    processPaper f z y e paper ⟨c, evts⟩ =
      .ok ⟨{ c with no_supplemental_material := c.no_supplemental_material + 1 },
        evts ++ [.mkdir (homeOf y e)]⟩ := by
  simp [processPaper, h, homeOf]

theorem processPaper_eq_pdf {f : Str → List Nat} {z : List Nat → Option (List (Str × List Nat))}
    {y : Nat} {e : PaperEntry} {paper : Paper} {c : Counters} {evts : List FsEvent} {u : Url}
    (h : paper.supplemental_url = some u) (hext : splitextExt u.path = chars ".pdf") :
    processPaper f z y e paper ⟨c, evts⟩ =
      .ok ⟨{ c with supplemental_material_pdf := c.supplemental_material_pdf + 1 },
        evts ++ [.mkdir (homeOf y e),
          .writeFile (homeOf y e ++ [chars "Supplemental" ++ chars ".pdf"]) (f u.urlStr)]⟩ := by
  simp only [processPaper, h, hext, homeOf]
  rw [if_pos (Or.inl trivial), if_neg (by decide)]
  simp

theorem processPaper_eq_zip_bad {f : Str → List Nat}
    {z : List Nat → Option (List (Str × List Nat))}
    {y : Nat} {e : PaperEntry} {paper : Paper} {c : Counters} {evts : List FsEvent} {u : Url}
    (h : paper.supplemental_url = some u) (hext : splitextExt u.path = chars ".zip")
    (hz : z (f u.urlStr) = none) :
    processPaper f z y e paper ⟨c, evts⟩ =
      .ok ⟨{ c with supplemental_material_zipped := c.supplemental_material_zipped + 1 },
        evts ++ [.mkdir (homeOf y e),
          .writeFile (homeOf y e ++ [chars "Supplemental" ++ chars ".zip"]) (f u.urlStr),
          .mkdir (homeOf y e ++ [chars "Supplemental"]),
          .warning (chars "Failed to unzip faulty zip file")]⟩ := by
  simp only [processPaper, h, hext, homeOf]
  rw [if_pos (Or.inr trivial), if_pos trivial, hz]
  simp

theorem processPaper_eq_zip_good {f : Str → List Nat}
    {z : List Nat → Option (List (Str × List Nat))}
    {y : Nat} {e : PaperEntry} {paper : Paper} {c : Counters} {evts : List FsEvent} {u : Url}
    {entries : List (Str × List Nat)}
    (h : paper.supplemental_url = some u) (hext : splitextExt u.path = chars ".zip")
    (hz : z (f u.urlStr) = some entries) :
    processPaper f z y e paper ⟨c, evts⟩ =
      .ok ⟨{ c with supplemental_material_zipped := c.supplemental_material_zipped + 1 },
        evts ++ ([.mkdir (homeOf y e),
          .writeFile (homeOf y e ++ [chars "Supplemental" ++ chars ".zip"]) (f u.urlStr),
          .mkdir (homeOf y e ++ [chars "Supplemental"])] ++
          entries.map (fun q =>
            FsEvent.writeFile (homeOf y e ++ [chars "Supplemental", q.1]) q.2))⟩ := by
  simp only [processPaper, h, hext, homeOf]
  rw [if_pos (Or.inr trivial), if_pos trivial, hz]
  simp

theorem processPaper_eq_badext {f : Str → List Nat}
    {z : List Nat → Option (List (Str × List Nat))}
    {y : Nat} {e : PaperEntry} {paper : Paper} {c : Counters} {evts : List FsEvent} {u : Url}
    (h : paper.supplemental_url = some u)
    (hbad : ¬(splitextExt u.path = chars ".pdf" ∨ splitextExt u.path = chars ".zip")) :
    processPaper f z y e paper ⟨c, evts⟩ = .error .assertionError := by
  simp only [processPaper, h]
  rw [if_neg hbad]

/-- C4: for a paper whose supplemental URL path ends in .zip and whose
fetched bytes are not a valid archive (the unzip oracle reports the bad
zip), materialization writes the bytes to Supplemental.zip, attempts the
extraction into the sibling Supplemental directory (creating it), catches
the failure and records the non-fatal warning, returns normally so no
exception escapes, and the main loop continues with the next paper; the
Supplemental.zip write remains in the log, which records no deletions. -/
theorem materialize_bad_zip_warns (f : Str → List Nat)
    (z : List Nat → Option (List (Str × List Nat))) (y : Nat) (e : PaperEntry)
    (paper : Paper) (c : Counters) (evts : List FsEvent) (u : Url)
    (h : paper.supplemental_url = some u) (hext : splitextExt u.path = chars ".zip")
    (hz : z (f u.urlStr) = none) :
    processPaper f z y e paper ⟨c, evts⟩ =
      .ok ⟨{ c with supplemental_material_zipped := c.supplemental_material_zipped + 1 },
        evts ++ [.mkdir (homeOf y e),
          .writeFile (homeOf y e ++ [chars "Supplemental" ++ chars ".zip"]) (f u.urlStr),
          .mkdir (homeOf y e ++ [chars "Supplemental"]),
          .warning (chars "Failed to unzip faulty zip file")]⟩ ∧
    ∀ rest, runPapersP f z y ((e, paper) :: rest) ⟨c, evts⟩ =
      runPapersP f z y rest
        ⟨{ c with supplemental_material_zipped := c.supplemental_material_zipped + 1 },
          evts ++ [.mkdir (homeOf y e),
            .writeFile (homeOf y e ++ [chars "Supplemental" ++ chars ".zip"]) (f u.urlStr),
            .mkdir (homeOf y e ++ [chars "Supplemental"]),
            .warning (chars "Failed to unzip faulty zip file")]⟩ := by
  have heq := @processPaper_eq_zip_bad f z y e paper c evts u h hext hz
  refine ⟨heq, fun rest => ?_⟩
  simp only [runPapersP]
  rw [heq, except_bind_ok]

/-- Witness for C4 at a concrete paper whose supplemental link ends in
.zip and whose bytes the unzip oracle rejects. -/
theorem materialize_bad_zip_warns_witness :
    processPaper fetch0 unzipNone 2020 entry0 paperZip ⟨⟨0, 0, 0, 0⟩, []⟩ =
      .ok ⟨{ (⟨0, 0, 0, 0⟩ : Counters) with supplemental_material_zipped :=
            (⟨0, 0, 0, 0⟩ : Counters).supplemental_material_zipped + 1 },
        [] ++ [.mkdir (homeOf 2020 entry0),
          .writeFile (homeOf 2020 entry0 ++ [chars "Supplemental" ++ chars ".zip"])
            (fetch0 (Url.urlStr ⟨chars "https", MAIN_SITE, chars "/s.zip"⟩)),
          .mkdir (homeOf 2020 entry0 ++ [chars "Supplemental"]),
          .warning (chars "Failed to unzip faulty zip file")]⟩ ∧
    ∀ rest, runPapersP fetch0 unzipNone 2020 ((entry0, paperZip) :: rest) ⟨⟨0, 0, 0, 0⟩, []⟩ =
      runPapersP fetch0 unzipNone 2020 rest
        ⟨{ (⟨0, 0, 0, 0⟩ : Counters) with supplemental_material_zipped :=
            (⟨0, 0, 0, 0⟩ : Counters).supplemental_material_zipped + 1 },
          [] ++ [.mkdir (homeOf 2020 entry0),
            .writeFile (homeOf 2020 entry0 ++ [chars "Supplemental" ++ chars ".zip"])
              (fetch0 (Url.urlStr ⟨chars "https", MAIN_SITE, chars "/s.zip"⟩)),
            .mkdir (homeOf 2020 entry0 ++ [chars "Supplemental"]),
            .warning (chars "Failed to unzip faulty zip file")]⟩ :=
  materialize_bad_zip_warns fetch0 unzipNone 2020 entry0 paperZip ⟨0, 0, 0, 0⟩ []
    ⟨chars "https", MAIN_SITE, chars "/s.zip"⟩ rfl (by decide) rfl

/-- C5: for a paper entry whose supplemental link is absent,
materialization completes normally, the only filesystem effect added is
the creation of the paper directory, so no Supplemental file of any kind
is written, and the no-supplemental-material counter is incremented
exactly once for that paper while all other counters are unchanged. -/
theorem materialize_no_supplemental (f : Str → List Nat)
    (z : List Nat → Option (List (Str × List Nat))) (y : Nat) (e : PaperEntry)
    (paper : Paper) (c : Counters) (evts : List FsEvent)
    (h : paper.supplemental_url = none) :
    processPaper f z y e paper ⟨c, evts⟩ =
      .ok ⟨{ c with no_supplemental_material := c.no_supplemental_material + 1 },
        evts ++ [.mkdir (homeOf y e)]⟩ :=
  processPaper_eq_none h

/-- Witness for C5 at a concrete paper without a supplemental link. -/
theorem materialize_no_supplemental_witness :
    processPaper fetch0 unzipNone 2020 entry0 paper0 ⟨⟨0, 0, 0, 0⟩, []⟩ =
      .ok ⟨{ (⟨0, 0, 0, 0⟩ : Counters) with no_supplemental_material :=
            (⟨0, 0, 0, 0⟩ : Counters).no_supplemental_material + 1 },
        [] ++ [.mkdir (homeOf 2020 entry0)]⟩ :=
  materialize_no_supplemental fetch0 unzipNone 2020 entry0 paper0 ⟨0, 0, 0, 0⟩ [] rfl

/-- C6: before the supplemental document is written, the extension of the
resolved supplemental URL path is checked; when it is .pdf or .zip the
check passes and materialization returns normally, so the error branch is
unreachable, and for any other extension the run aborts fatally with the
assertion error of the extension check. -/
theorem materialize_extension_check (f : Str → List Nat)
    (z : List Nat → Option (List (Str × List Nat))) (y : Nat) (e : PaperEntry)
    (paper : Paper) (c : Counters) (evts : List FsEvent) (u : Url)
    (h : paper.supplemental_url = some u) :
    ((splitextExt u.path = chars ".pdf" ∨ splitextExt u.path = chars ".zip") →
      ∃ st2, processPaper f z y e paper ⟨c, evts⟩ = .ok st2) ∧
    (¬(splitextExt u.path = chars ".pdf" ∨ splitextExt u.path = chars ".zip") →
      processPaper f z y e paper ⟨c, evts⟩ = .error .assertionError) := by
  constructor
  · rintro (hpdf | hzip)
    · exact ⟨_, processPaper_eq_pdf h hpdf⟩
    · cases hz : z (f u.urlStr) with
      | none => exact ⟨_, processPaper_eq_zip_bad h hzip hz⟩
      | some entries => exact ⟨_, processPaper_eq_zip_good h hzip hz⟩
  · exact processPaper_eq_badext h

/-- Witness for C6: the check passes on a concrete .zip supplemental URL
and the run aborts with the assertion error on a concrete .txt one. -/
theorem materialize_extension_check_witness :
    (∃ st2, processPaper fetch0 unzipNone 2020 entry0 paperZip ⟨⟨0, 0, 0, 0⟩, []⟩ = .ok st2) ∧
    processPaper fetch0 unzipNone 2020 entry0 paperTxt ⟨⟨0, 0, 0, 0⟩, []⟩ =
      .error .assertionError :=
  ⟨(materialize_extension_check fetch0 unzipNone 2020 entry0 paperZip ⟨0, 0, 0, 0⟩ []
      ⟨chars "https", MAIN_SITE, chars "/s.zip"⟩ rfl).1 (Or.inr (by decide)),
   (materialize_extension_check fetch0 unzipNone 2020 entry0 paperTxt ⟨0, 0, 0, 0⟩ []
      ⟨chars "https", MAIN_SITE, chars "/s.txt"⟩ rfl).2 (by decide)⟩

theorem processPaper_counters {f : Str → List Nat}
    {z : List Nat → Option (List (Str × List Nat))}
    {y : Nat} {e : PaperEntry} {paper : Paper} {c : Counters} {evts : List FsEvent}
    {c2 : Counters} {evts2 : List FsEvent}
    (h : processPaper f z y e paper ⟨c, evts⟩ = .ok ⟨c2, evts2⟩) :
    c2.no_author_feedback = c.no_author_feedback ∧
    c2.no_supplemental_material =
      c.no_supplemental_material + (if paper.supplemental_url.isNone then 1 else 0) ∧
    c2.supplemental_material_zipped =
      c.supplemental_material_zipped + (if suppHasExt (chars ".zip") paper then 1 else 0) ∧
    c2.supplemental_material_pdf =
      c.supplemental_material_pdf + (if suppHasExt (chars ".pdf") paper then 1 else 0) := by
  cases hsupp : paper.supplemental_url with
  | none =>
    rw [processPaper_eq_none hsupp] at h
    simp only [Except.ok.injEq, RunState.mk.injEq] at h
    obtain ⟨hc, _⟩ := h
    subst hc
    simp [hsupp, suppHasExt]
  | some u =>
    by_cases hpdf : splitextExt u.path = chars ".pdf"
    · rw [processPaper_eq_pdf hsupp hpdf] at h
      simp only [Except.ok.injEq, RunState.mk.injEq] at h
      obtain ⟨hc, _⟩ := h
      subst hc
      have hz1 : suppHasExt (chars ".zip") paper = false := by
        simp only [suppHasExt, hsupp, hpdf]
        decide
      have hp1 : suppHasExt (chars ".pdf") paper = true := by
        simp only [suppHasExt, hsupp, hpdf]
        decide
      simp [hsupp, hz1, hp1]
    · by_cases hzip : splitextExt u.path = chars ".zip"
      · have hz1 : suppHasExt (chars ".zip") paper = true := by
          simp only [suppHasExt, hsupp, hzip]
          decide
        have hp1 : suppHasExt (chars ".pdf") paper = false := by
          simp only [suppHasExt, hsupp, hzip]
          decide
        cases hz : z (f u.urlStr) with
        | none =>
          rw [processPaper_eq_zip_bad hsupp hzip hz] at h
          simp only [Except.ok.injEq, RunState.mk.injEq] at h
          obtain ⟨hc, _⟩ := h
          subst hc
          simp [hsupp, hz1, hp1]
        | some entries =>
          rw [processPaper_eq_zip_good hsupp hzip hz] at h
          simp only [Except.ok.injEq, RunState.mk.injEq] at h
          obtain ⟨hc, _⟩ := h
          subst hc
          simp [hsupp, hz1, hp1]
      · rw [processPaper_eq_badext hsupp (by tauto)] at h
        cases h

/-- C7 (amended): after the materialization loop processes every paper
with initial counters c, the reported no-supplemental, zipped-supplemental
and pdf-supplemental counters equal c plus their defining counts over the
processed papers; the reported no-author-feedback counter instead keeps
its initial value, zero for a run, whatever countNoFeedback is, because
its increment lies in the disabled download block of the source. -/
theorem run_counters_report (f : Str → List Nat)
    (z : List Nat → Option (List (Str × List Nat))) (y : Nat) :
    ∀ (papers : List (PaperEntry × Paper)) (c : Counters) (evts : List FsEvent)
      (st : RunState),
    runPapersP f z y papers ⟨c, evts⟩ = .ok st →
    st.counters.no_author_feedback = c.no_author_feedback ∧
    st.counters.no_supplemental_material = c.no_supplemental_material + countNoSupp papers ∧
    st.counters.supplemental_material_zipped =
      c.supplemental_material_zipped + countSuppZip papers ∧
    st.counters.supplemental_material_pdf =
      c.supplemental_material_pdf + countSuppPdf papers := by
  intro papers
  induction papers with
  | nil =>
    intro c evts st h
    simp only [runPapersP, Except.ok.injEq] at h
    subst h
    simp [countNoSupp, countSuppZip, countSuppPdf]
  | cons q rest ih =>
    intro c evts st h
    simp only [runPapersP] at h
    cases hpp : processPaper f z y q.1 q.2 ⟨c, evts⟩ with
    | error e2 =>
      rw [hpp, except_bind_error] at h
      cases h
    | ok st2 =>
      rw [hpp, except_bind_ok] at h
      obtain ⟨c2, evts2⟩ := st2
      obtain ⟨h1, h2, h3, h4⟩ := processPaper_counters hpp
      obtain ⟨g1, g2, g3, g4⟩ := ih c2 evts2 st h
      refine ⟨by rw [g1, h1], ?_, ?_, ?_⟩
      · rw [g2, h2]
        simp only [countNoSupp, List.countP_cons]
        cases hb : q.2.supplemental_url.isNone <;> (simp [hb]; try omega)
      · rw [g3, h3]
        simp only [countSuppZip, List.countP_cons]
        cases hb : suppHasExt (chars ".zip") q.2 <;> (simp [hb]; try omega)
      · rw [g4, h4]
        simp only [countSuppPdf, List.countP_cons]
        cases hb : suppHasExt (chars ".pdf") q.2 <;> (simp [hb]; try omega)

/-- C7, counterexample: a run that processes one paper with no author
feedback link reports the no-author-feedback counter as zero, while the
defining count over the processed papers is one, so the reported counter
does not equal its defining count. -/
theorem run_counters_no_feedback_wrong :
    (runPapersP fetch0 unzipNone 2020 [(entry0, paper0)] initialState).map
        (fun st => st.counters.no_author_feedback) = .ok 0 ∧
    countNoFeedback [(entry0, paper0)] = 1 := by
  constructor
  · decide
  · decide

/-- Witness for C7 on a concrete one-paper run. -/
theorem run_counters_report_witness :
    stW7.counters.no_author_feedback = c0W.no_author_feedback ∧
    stW7.counters.no_supplemental_material =
      c0W.no_supplemental_material + countNoSupp [(entry0, paper0)] ∧
    stW7.counters.supplemental_material_zipped =
      c0W.supplemental_material_zipped + countSuppZip [(entry0, paper0)] ∧
    stW7.counters.supplemental_material_pdf =
      c0W.supplemental_material_pdf + countSuppPdf [(entry0, paper0)] :=
  run_counters_report fetch0 unzipNone 2020 [(entry0, paper0)] c0W [] stW7 (by decide)

theorem writeTargets_append (a b : List FsEvent) :
    writeTargets (a ++ b) = writeTargets a ++ writeTargets b := by
  simp [writeTargets, List.filterMap_append]

theorem paperDir_filterMap_append (a b : List FsEvent) :
    (a ++ b).filterMap paperDirOf = a.filterMap paperDirOf ++ b.filterMap paperDirOf := by
  simp [List.filterMap_append]

theorem paperDir_map_writes (l : List (Str × List Nat)) (g : Str × List Nat → List Str) :
    ((l.map (fun q => FsEvent.writeFile (g q) q.2)).filterMap paperDirOf) = [] := by
  induction l with
  | nil => rfl
  | cons q rest ih =>
    simp only [List.map_cons, List.filterMap_cons]
    exact ih

theorem writeTargets_map_writes (l : List (Str × List Nat)) (g : Str × List Nat → List Str) :
    writeTargets (l.map (fun q => FsEvent.writeFile (g q) q.2)) = l.map g := by
  induction l with
  | nil => rfl
  | cons q rest ih =>
    simp only [List.map_cons, writeTargets, List.filterMap_cons] at *
    rw [ih]

theorem processPaper_step_events {f : Str → List Nat}
    {z : List Nat → Option (List (Str × List Nat))}
    {y : Nat} {e : PaperEntry} {paper : Paper} {c : Counters} {evts : List FsEvent}
    {c2 : Counters} {evts2 : List FsEvent}
    (h : processPaper f z y e paper ⟨c, evts⟩ = .ok ⟨c2, evts2⟩) :
    evts2.filterMap paperDirOf = evts.filterMap paperDirOf ++ [slugify e.title] ∧
    ∀ p ∈ writeTargets evts2, p ∈ writeTargets evts ∨
      (∃ ext, p = homeOf y e ++ [chars "Supplemental" ++ ext]) ∨
      (∃ n, p = homeOf y e ++ [chars "Supplemental", n]) := by
  cases hsupp : paper.supplemental_url with
  | none =>
    rw [processPaper_eq_none hsupp] at h
    simp only [Except.ok.injEq, RunState.mk.injEq] at h
    obtain ⟨_, he⟩ := h
    subst he
    constructor
    · rw [paperDir_filterMap_append]
      simp [paperDirOf, homeOf]
    · intro p hp
      rw [writeTargets_append] at hp
      rcases List.mem_append.mp hp with hp | hp
      · exact Or.inl hp
      · simp [writeTargets] at hp
  | some u =>
    by_cases hpdf : splitextExt u.path = chars ".pdf"
    · rw [processPaper_eq_pdf hsupp hpdf] at h
      simp only [Except.ok.injEq, RunState.mk.injEq] at h
      obtain ⟨_, he⟩ := h
      subst he
      constructor
      · rw [paperDir_filterMap_append]
        simp [paperDirOf, homeOf]
      · intro p hp
        rw [writeTargets_append] at hp
        rcases List.mem_append.mp hp with hp | hp
        · exact Or.inl hp
        · simp only [writeTargets, List.filterMap_cons, List.filterMap_nil] at hp
          simp only [List.mem_cons, List.not_mem_nil, or_false] at hp
          exact Or.inr (Or.inl ⟨chars ".pdf", hp⟩)
    · by_cases hzip : splitextExt u.path = chars ".zip"
      · cases hz : z (f u.urlStr) with
        | none =>
          rw [processPaper_eq_zip_bad hsupp hzip hz] at h
          simp only [Except.ok.injEq, RunState.mk.injEq] at h
          obtain ⟨_, he⟩ := h
          subst he
          constructor
          · rw [paperDir_filterMap_append]
            simp [paperDirOf, homeOf]
          · intro p hp
            rw [writeTargets_append] at hp
            rcases List.mem_append.mp hp with hp | hp
            · exact Or.inl hp
            · simp only [writeTargets, List.filterMap_cons, List.filterMap_nil] at hp
              simp only [List.mem_cons, List.not_mem_nil, or_false] at hp
              exact Or.inr (Or.inl ⟨chars ".zip", hp⟩)
        | some entries =>
          rw [processPaper_eq_zip_good hsupp hzip hz] at h
          simp only [Except.ok.injEq, RunState.mk.injEq] at h
          obtain ⟨_, he⟩ := h
          subst he
          constructor
          · rw [paperDir_filterMap_append, paperDir_filterMap_append,
                paperDir_map_writes entries
                  (fun q => homeOf y e ++ [chars "Supplemental", q.1])]
            simp [paperDirOf, homeOf]
          · intro p hp
            rw [writeTargets_append, writeTargets_append,
                writeTargets_map_writes entries
                  (fun q => homeOf y e ++ [chars "Supplemental", q.1])] at hp
            rcases List.mem_append.mp hp with hp | hp
            · exact Or.inl hp
            · rcases List.mem_append.mp hp with hp | hp
              · simp only [writeTargets, List.filterMap_cons, List.filterMap_nil] at hp
                simp only [List.mem_cons, List.not_mem_nil, or_false] at hp
                exact Or.inr (Or.inl ⟨chars ".zip", hp⟩)
              · obtain ⟨q, _, hq⟩ := List.mem_map.mp hp
                exact Or.inr (Or.inr ⟨q.1, hq.symm⟩)
      · rw [processPaper_eq_badext hsupp (by tauto)] at h
        cases h

theorem runEntries_events (details : Str → DetailPage) (f : Str → List Nat)
    (z : List Nat → Option (List (Str × List Nat))) (y : Nat) :
    ∀ (entries : List PaperEntry) (c : Counters) (evts : List FsEvent) (st : RunState),
    runEntries details f z y entries ⟨c, evts⟩ = .ok st →
    st.events.filterMap paperDirOf =
      evts.filterMap paperDirOf ++ entries.map (fun e => slugify e.title) ∧
    ∀ p ∈ writeTargets st.events, p ∈ writeTargets evts ∨
      ∃ e ∈ entries, (∃ ext, p = homeOf y e ++ [chars "Supplemental" ++ ext]) ∨
        (∃ n, p = homeOf y e ++ [chars "Supplemental", n]) := by
  intro entries
  induction entries with
  | nil =>
    intro c evts st h
    simp only [runEntries, Except.ok.injEq] at h
    subst h
    exact ⟨by simp, fun p hp => Or.inl hp⟩
  | cons e rest ih =>
    intro c evts st h
    simp only [runEntries] at h
    cases hgp : get_paper e (details e.url.urlStr) with
    | error e2 =>
      rw [hgp, except_bind_error] at h
      cases h
    | ok paper =>
      rw [hgp, except_bind_ok] at h
      cases hpp : processPaper f z y e paper ⟨c, evts⟩ with
      | error e2 =>
        rw [hpp, except_bind_error] at h
        cases h
      | ok st2 =>
        rw [hpp, except_bind_ok] at h
        obtain ⟨c2, evts2⟩ := st2
        obtain ⟨s1, s2⟩ := processPaper_step_events hpp
        obtain ⟨g1, g2⟩ := ih c2 evts2 st h
        constructor
        · rw [g1, s1, List.append_assoc]
          simp
        · intro p hp
          rcases g2 p hp with hin | ⟨e2, he2, hsh⟩
          · rcases s2 p hin with hin2 | hsh
            · exact Or.inl hin2
            · exact Or.inr ⟨e, List.mem_cons_self e rest, hsh⟩
          · exact Or.inr ⟨e2, List.mem_cons_of_mem e he2, hsh⟩

/-- C8 (amended): a materialization run from a fresh state creates, in
processing order, exactly one output directory out/<year>/<slug(title)>
per processed entry, named by the slugified title; but it writes no
Authors.txt and none of the other per-paper metadata or document files,
because their download block is disabled in the source: every file write
of the run is a supplemental artifact, either Supplemental.<ext> inside a
paper directory or an entry extracted below its Supplemental
subdirectory. -/
theorem run_creates_dirs_without_metadata_files (details : Str → DetailPage)
    (f : Str → List Nat) (z : List Nat → Option (List (Str × List Nat))) (y : Nat)
    (entries : List PaperEntry) (c : Counters) (st : RunState)
    (h : runEntries details f z y entries ⟨c, []⟩ = .ok st) :
    st.events.filterMap paperDirOf = entries.map (fun e => slugify e.title) ∧
    ∀ p ∈ writeTargets st.events,
      ∃ e ∈ entries, (∃ ext, p = homeOf y e ++ [chars "Supplemental" ++ ext]) ∨
        (∃ n, p = homeOf y e ++ [chars "Supplemental", n]) := by
  obtain ⟨h1, h2⟩ := runEntries_events details f z y entries c [] st h
  refine ⟨by simpa using h1, fun p hp => ?_⟩
  rcases h2 p hp with hin | hsh
  · simp [writeTargets] at hin
  · exact hsh

/-- C8, counterexample: an end-to-end run over a listing of two entries
with stub detail pages succeeds and creates exactly the two output
directories named by the slugified titles, but writes no file at all; in
particular no Authors.txt and none of the five files the claim calls
always present exist in either directory. -/
theorem run_two_entries_no_files :
    (run detailsEmpty fetch0 unzipNone 2020 items2).map
      (fun st => (st.events.filterMap paperDirOf, writeTargets st.events)) =
      .ok ([chars "Paper-One", chars "Paper-Two"], []) := by decide

/-- Witness for C8 on a concrete one-entry run. -/
theorem run_creates_dirs_witness :
    stW8.events.filterMap paperDirOf = [entry0].map (fun e => slugify e.title) ∧
    ∀ p ∈ writeTargets stW8.events,
      ∃ e ∈ [entry0], (∃ ext, p = homeOf 2020 e ++ [chars "Supplemental" ++ ext]) ∨
        (∃ n, p = homeOf 2020 e ++ [chars "Supplemental", n]) :=
  run_creates_dirs_without_metadata_files detailsEmpty fetch0 unzipNone 2020 [entry0]
    c0W stW8 (by decide)
